import Mathlib

/-!
Verification of the MMF/SMAF parser (`MMFParser`) and the playback
scheduler (`MMFPlayer`) of the mmfPlayer repository.

The parser is embedded over byte lists: a `List ℕ` models the `Uint8Array`
(entries are bytes, 0 ≤ b < 256), and the mutable cursor `this.position`
is threaded explicitly through each operation.  JavaScript out-of-range
indexing of a typed array yields `undefined`; a read whose value is
branched on is therefore modeled as `Option ℕ` (`none` = `undefined`:
every numeric comparison with `undefined` is false, and `undefined`
used in a bitwise context coerces to 0).  Times are modeled as `ℚ`,
matching the real-number reading of the specification; JavaScript
`Math.round` on a nonnegative value is Mathlib's `round` (half up).
While loops are expressed as fuel-indexed structural recursions; the fuel
passed by the wrappers always dominates the number of iterations, since
the cursor strictly advances on every iteration.

The player is embedded as a record of the class fields, with the class
methods as pure state transformers that additionally return the
notifications they emit and the render commands they submit.
-/

/-- The `DEFAULT_NOTE_DURATION_MS` constant of the source. -/
def DEFAULT_NOTE_DURATION_MS : ℚ := 250

/-- One decoded note event (`MMFNote` of the source). -/
structure MMFNote where
  time : ℚ
  note : ℕ
  duration : ℚ
  velocity : ℕ
  channel : ℕ
  deriving DecidableEq

/-- Decoded content-information metadata (`MMFMetadata`).  Text is kept at
the byte level (see `MMFParser.readStringBytes`); a missing field is
`none`, matching an absent object property. -/
structure MMFMetadata where
  title : Option (List ℕ)
  composer : Option (List ℕ)
  arranger : Option (List ℕ)
  copyright : Option (List ℕ)
  deriving DecidableEq

/-- The parsed document (`MMFData`). -/
structure MMFData where
  metadata : MMFMetadata
  notes : List MMFNote
  duration : ℚ
  tempo : ℤ
  deriving DecidableEq

/-- A top-level chunk header (`ChunkInfo`): decoded type tag, payload size,
payload start offset. -/
structure ChunkInfo where
  type : List ℕ
  size : ℕ
  offset : ℕ
  deriving DecidableEq

namespace MMFParser

/-- `readUInt8`: `this.data[this.position++]`.  Out-of-range indexing of a
`Uint8Array` yields `undefined`, modeled as `none`.  The accompanying
cursor advance (always by one, even out of range) is tracked explicitly at
each call site. -/
def readUInt8 (data : List ℕ) (pos : ℕ) : Option ℕ := data.get? pos

/-- A byte read used directly in a JavaScript arithmetic (shift/or)
context: `ToInt32 undefined = 0`, so an out-of-range read contributes 0. -/
def byteAt (data : List ℕ) (pos : ℕ) : ℕ := (data.get? pos).getD 0

/-- `readUInt24BE`: `(b0 << 16) | (b1 << 8) | b2`.  For byte values the
shift-or chain is exactly base-256 arithmetic. -/
def readUInt24BE (data : List ℕ) (pos : ℕ) : ℕ :=
  byteAt data pos * 65536 + byteAt data (pos + 1) * 256 + byteAt data (pos + 2)

/-- `readUInt32BE`: `((b0 << 24) | (b1 << 16) | (b2 << 8) | b3) >>> 0`.
For byte values (< 256, guaranteed by `Uint8Array`) no 32-bit wrap can
occur and the expression is base-256 arithmetic. -/
def readUInt32BE (data : List ℕ) (pos : ℕ) : ℕ :=
  byteAt data pos * 16777216 + byteAt data (pos + 1) * 65536 +
    byteAt data (pos + 2) * 256 + byteAt data (pos + 3)

/-- The single-byte whitespace characters removed by
`String.prototype.trim` (tab, LF, VT, FF, CR, space); the only ones a
Shift-JIS single byte can decode to. -/
def isJsSpace (b : ℕ) : Bool :=
  b == 9 || b == 10 || b == 11 || b == 12 || b == 13 || b == 32

/-- The post-processing done by `readString`:
`.replace(/\0/g, '').trim()` — strip every NUL byte, then trim leading
and trailing whitespace.  Kept at the byte level: for every comparison the
source makes (the `MMMD` magic and the 4-character ASCII chunk-type case
labels) byte-level equality coincides with equality of the decoded
strings, because a 4-character ASCII result can only arise from exactly
those ASCII bytes (Shift-JIS two-byte sequences shorten the string, and
stripping only removes characters). -/
def stripTrim (l : List ℕ) : List ℕ :=
  ((((l.filter (fun b => !(b == 0))).dropWhile isJsSpace).reverse.dropWhile isJsSpace)).reverse

/-- `readString(length)` at position `pos`: `Uint8Array.slice` clamps at
the end of the buffer (modeled by `drop`/`take`), then the decoded text is
NUL-stripped and trimmed. -/
def readStringBytes (data : List ℕ) (pos len : ℕ) : List ℕ :=
  stripTrim ((data.drop pos).take len)

/-- Two's-complement truncation to a signed 32-bit integer, as applied by
every JavaScript bitwise operator (`ToInt32`). -/
def toInt32 (n : ℤ) : ℤ :=
  let m := n % 4294967296
  if m < 2147483648 then m else m - 4294967296

/-- The unsigned 32-bit pattern of a JavaScript number already in Int32
range (two's complement). -/
def int32Bits (n : ℤ) : ℕ := (n % 4294967296).toNat

/-- JavaScript `value << k` (Int32 shift with wrap-around). -/
def jsShl32 (a : ℤ) (k : ℕ) : ℤ := toInt32 (a * 2 ^ k)

/-- JavaScript `a | b` for `a` an Int32-ranged value and `b` a small
nonnegative value (the masked continuation byte). -/
def jsOr32 (a : ℤ) (b : ℕ) : ℤ := toInt32 (Int.ofNat (Nat.lor (int32Bits a) b))

/-- The do-while loop of `readVariableLength`:
`byte = readUInt8(); value = (value << 7) | (byte & 0x7F)` repeated while
`byte & 0x80`.  A read past the end of the buffer yields `undefined`,
which coerces to 0 in both bitwise expressions, ending the loop. -/
def vlqLoop (data : List ℕ) : ℕ → ℕ → ℤ → ℤ × ℕ
  | 0, pos, value => (value, pos)
  | fuel + 1, pos, value =>
    let bv : ℕ := (data.get? pos).getD 0
    let v2 := jsOr32 (jsShl32 value 7) (bv &&& 127)
    if bv &&& 128 ≠ 0 then vlqLoop data fuel (pos + 1) v2 else (v2, pos + 1)

/-- `readVariableLength(firstByte)` (the only call sites always supply
`firstByte`).  Returns the decoded value and the new cursor position.
When `firstByte` has the high bit clear — the case at every call site,
which passes a status byte < 0x80 — the function returns immediately. -/
def readVariableLength (data : List ℕ) (pos : ℕ) (firstByte : ℕ) : ℤ × ℕ :=
  if firstByte &&& 128 ≠ 0 then
    vlqLoop data (data.length + 1) pos ((firstByte &&& 127 : ℕ) : ℤ)
  else ((firstByte : ℤ), pos)

/-- The sequence-data while loop of `parseMTR` (the `part_001` revision of
the parser, the one with the MTR sub-header and bounds checks).  State:
cursor `pos`, running time `t` (`currentTime`), accumulated `notes`, and
the optional `tempo` override.  `tick` is the precomputed `tickDuration`.
The loop runs while `this.position < endPos - 1`; every iteration strictly
advances the cursor, so any fuel ≥ `endPos` dominates the iteration count.
An `undefined` status byte (chunk extending past the buffer) matches no
branch and falls through to the trailing
`if (this.position >= endPos) break`. -/
def mtrLoop (data : List ℕ) (endPos : ℕ) (tick : ℚ) :
    ℕ → ℕ → ℚ → List MMFNote → Option ℤ → List MMFNote × Option ℤ
  | 0, _, _, notes, tempo => (notes, tempo)
  | fuel + 1, pos, t, notes, tempo =>
    if pos < endPos - 1 then
      match readUInt8 data pos with
      | none =>
          if pos + 1 ≥ endPos then (notes, tempo)
          else mtrLoop data endPos tick fuel (pos + 1) t notes tempo
      | some status =>
        if 128 ≤ status ∧ status ≤ 143 then
          -- note off 0x80-0x8F: two data bytes consumed and discarded
          if pos + 1 + 2 > endPos then (notes, tempo)
          else mtrLoop data endPos tick fuel (pos + 3) t notes tempo
        else if 144 ≤ status ∧ status ≤ 159 then
          -- note on 0x90-0x9F
          if pos + 1 + 2 > endPos then (notes, tempo)
          else
            match readUInt8 data (pos + 1), readUInt8 data (pos + 2) with
            | some nv, some v =>
                if 0 < v then
                  mtrLoop data endPos tick fuel (pos + 3) t
                    (notes ++ [⟨t, nv, DEFAULT_NOTE_DURATION_MS, v, status &&& 15⟩]) tempo
                else mtrLoop data endPos tick fuel (pos + 3) t notes tempo
            | _, _ =>
                -- an undefined velocity fails `velocity > 0`, so nothing is
                -- pushed (an undefined pitch with a defined velocity cannot
                -- occur: list indexing is monotone)
                mtrLoop data endPos tick fuel (pos + 3) t notes tempo
        else if status = 255 then
          -- meta event 0xFF
          if pos + 1 + 2 > endPos then (notes, tempo)
          else
            match readUInt8 data (pos + 1), readUInt8 data (pos + 2) with
            | some metaType, some len =>
                if metaType = 81 ∧ len = 3 ∧ pos + 3 + 3 ≤ endPos then
                  -- tempo change 0xFF 0x51 0x03: 24-bit microseconds per beat
                  mtrLoop data endPos tick fuel (pos + 6) t notes
                    (some (round ((60000000 : ℚ) / (readUInt24BE data (pos + 3) : ℚ))))
                else if pos + 3 + len ≤ endPos then
                  mtrLoop data endPos tick fuel (pos + 3 + len) t notes tempo
                else (notes, tempo)
            | _, _ => (notes, tempo)
              -- an undefined length makes `position += length` NaN; the
              -- loop condition then fails and the wrapper forces the
              -- cursor to `endPos`, i.e. the loop ends here
        else if status < 128 then
          -- delta time: `currentTime += readVariableLength(status) * tickDuration`
          let d := readVariableLength data (pos + 1) status
          mtrLoop data endPos tick fuel d.2 (t + (d.1 : ℚ) * tick) notes tempo
        else if 176 ≤ status ∧ status ≤ 239 then
          -- control/program change family 0xB0-0xEF
          let dataBytes : ℕ := if 192 ≤ status ∧ status ≤ 223 then 1 else 2
          if pos + 1 + dataBytes ≤ endPos then
            mtrLoop data endPos tick fuel (pos + 1 + dataBytes) t notes tempo
          else (notes, tempo)
        else
          -- 0xA0-0xAF and 0xF0-0xFE match no branch: fall through to
          -- `if (this.position >= endPos) break` with position = pos + 1
          if pos + 1 ≥ endPos then (notes, tempo)
          else mtrLoop data endPos tick fuel (pos + 1) t notes tempo
    else (notes, tempo)

/-- `tickDuration = timeBaseD > 0 ? msPerQuarterNote / timeBaseD : 1`
with `msPerQuarterNote = 500`; an `undefined` time base (chunk extending
past the buffer) fails `> 0` and also yields 1. -/
def mtrTick (timeBaseD : Option ℕ) : ℚ :=
  match timeBaseD with
  | some d => if 0 < d then 500 / (d : ℚ) else 1
  | none => 1

/-- `parseMTR` (the `part_001` revision): five single-byte sub-header
reads — format type (`offset`), sequence type (`offset+1`), TimeBase_D
(`offset+2`), TimeBase_G (`offset+3`), channel status (`offset+4`) — each
preceded/followed by the source's `if (this.position >= endPos)` early
return, then the sequence-data loop from `offset + 5`.  Only TimeBase_D
is consulted afterwards; the other four reads advance the cursor, which
the cascade of guards reflects.  On every path the source finally forces
`this.position = endPos`; the cursor is therefore not part of the result. -/
def parseMTR (data : List ℕ) (offset size : ℕ) : List MMFNote × Option ℤ :=
  let endPos := offset + size
  if offset ≥ endPos then ([], none)
  else if offset + 1 ≥ endPos then ([], none)
  else if offset + 2 ≥ endPos then ([], none)
  else if offset + 3 ≥ endPos then ([], none)
  else if offset + 4 ≥ endPos then ([], none)
  else if offset + 5 ≥ endPos then ([], none)
  else mtrLoop data endPos (mtrTick (readUInt8 data (offset + 2))) size (offset + 5) 0 [] none

/-- The switch of `parseCNTI` mapping a field code to a metadata field;
codes other than 0-3 store nothing. -/
def cntiSet (md : MMFMetadata) (code : ℕ) (content : List ℕ) : MMFMetadata :=
  if code = 0 then {md with title := some content}
  else if code = 1 then {md with composer := some content}
  else if code = 2 then {md with arranger := some content}
  else if code = 3 then {md with copyright := some content}
  else md

/-- The record loop of `parseCNTI`: while `position < endPos - 2`, read a
1-byte field code and a 1-byte length, stop if the length is 0 or would
overrun the chunk, otherwise read the content and store it.  An undefined
length (`some ct, none`) passes the bound check (NaN comparisons are
false), reads an empty string, stores it, and then the NaN cursor ends
the loop. -/
def cntiLoop (data : List ℕ) (endPos : ℕ) : ℕ → ℕ → MMFMetadata → MMFMetadata
  | 0, _, md => md
  | fuel + 1, pos, md =>
    if pos < endPos - 2 then
      match readUInt8 data pos, readUInt8 data (pos + 1) with
      | some ct, some cs =>
          if cs = 0 ∨ pos + 2 + cs > endPos then md
          else
            cntiLoop data endPos fuel (pos + 2 + cs)
              (cntiSet md ct (readStringBytes data (pos + 2) cs))
      | some ct, none => cntiSet md ct []
      | none, _ => md
    else md

/-- The empty metadata object. -/
def emptyMetadata : MMFMetadata := ⟨none, none, none, none⟩

/-- `parseCNTI`: run the record loop over the chunk payload.  The source
finally forces `this.position = endPos` on every path. -/
def parseCNTI (data : List ℕ) (offset size : ℕ) : MMFMetadata :=
  cntiLoop data (offset + size) size offset emptyMetadata

/-- `Object.assign(metadata, this.parseCNTI(chunk))`: a field present in
the freshly parsed record overwrites, an absent field keeps the old
value. -/
def orField : Option (List ℕ) → Option (List ℕ) → Option (List ℕ)
  | some v, _ => some v
  | none, o => o

/-- Merge freshly parsed metadata over the accumulated metadata. -/
def mergeMetadata (old fresh : MMFMetadata) : MMFMetadata :=
  ⟨orField fresh.title old.title, orField fresh.composer old.composer,
   orField fresh.arranger old.arranger, orField fresh.copyright old.copyright⟩

/-- The ASCII bytes of the magic signature `MMMD`. -/
def magicBytes : List ℕ := [77, 77, 77, 68]

/-- ASCII bytes of the case label `CNTI`. -/
def tagCNTI : List ℕ := [67, 78, 84, 73]

/-- ASCII bytes of the case label `OPDA`. -/
def tagOPDA : List ℕ := [79, 80, 68, 65]

/-- ASCII bytes of the case label `MTR ` (trailing space). -/
def tagMTRsp : List ℕ := [77, 84, 82, 32]

/-- ASCII bytes of the case label `Mtr ` (trailing space). -/
def tagMtrsp : List ℕ := [77, 116, 114, 32]

/-- `verifyHeader`: read 4 bytes at position 0 and compare the decoded
string with `MMMD`. -/
def verifyHeader (data : List ℕ) : Bool := readStringBytes data 0 4 == magicBytes

/-- `readChunkHeader`: returns `null` when
`this.position >= this.data.length - 8` (in ℕ, truncated subtraction
matches the JavaScript comparison: for `length < 8` the right side is
negative and the comparison always holds); otherwise reads the 4-byte
decoded tag, the 32-bit big-endian size, and records the payload
offset. -/
def readChunkHeader (data : List ℕ) (pos : ℕ) : Option ChunkInfo :=
  if pos ≥ data.length - 8 then none
  else some ⟨readStringBytes data pos 4, readUInt32BE data (pos + 4), pos + 8⟩

/-- The accumulator of the top-level chunk loop. -/
structure ParseAcc where
  metadata : MMFMetadata
  notes : List MMFNote
  tempo : ℤ
  deriving DecidableEq

/-- `if (trackData.tempo) tempo = trackData.tempo`: JavaScript truthiness,
so a returned tempo of 0 does not overwrite. -/
def applyTrackTempo (old : ℤ) : Option ℤ → ℤ
  | some tp => if tp = 0 then old else tp
  | none => old

/-- The top-level chunk loop of `parse`: while
`this.position < this.data.length - 8`, read a chunk header and dispatch
on the decoded tag.  The cursor after a chunk is `offset + size` on every
branch (the chunk parsers force it there, the skip branches assign it).
The `MTR `/`Mtr ` case labels end in a space, which `readString`'s
`trim()` always removes from the decoded tag, so that branch can never be
taken at run time; it is translated as written. -/
def parseChunks (data : List ℕ) : ℕ → ℕ → ParseAcc → ParseAcc
  | 0, _, acc => acc
  | fuel + 1, pos, acc =>
    if pos < data.length - 8 then
      match readChunkHeader data pos with
      | none => acc
      | some ch =>
          if ch.type = tagCNTI ∨ ch.type = tagOPDA then
            parseChunks data fuel (ch.offset + ch.size)
              ⟨mergeMetadata acc.metadata (parseCNTI data ch.offset ch.size),
               acc.notes, acc.tempo⟩
          else if ch.type = tagMTRsp ∨ ch.type = tagMtrsp then
            let tr := parseMTR data ch.offset ch.size
            parseChunks data fuel (ch.offset + ch.size)
              ⟨acc.metadata, acc.notes ++ tr.1, applyTrackTempo acc.tempo tr.2⟩
          else
            -- MSTR / Atsq / 'ATR ' / unknown tags: skip to the payload end
            parseChunks data fuel (ch.offset + ch.size) acc
    else acc

/-- `Math.max(...notes.map(n => n.time + n.duration))` for a nonempty
list, 0 otherwise. -/
def totalDuration (notes : List MMFNote) : ℚ :=
  match notes.map (fun n => n.time + n.duration) with
  | [] => 0
  | x :: xs => xs.foldl max x

/-- The only fatal parse error: a bad magic signature. -/
inductive MMFError
  | invalidFormat
  deriving DecidableEq

/-- `parse`: verify the `MMMD` header (else throw), read the informational
32-bit file size (cursor 4 → 8), run the chunk loop from position 8 with
default tempo 120, then assemble the document.  The fuel
`data.length + 1` dominates the iteration count because every iteration
advances the cursor by at least 8. -/
def parse (data : List ℕ) : Except MMFError MMFData :=
  if verifyHeader data then
    let acc := parseChunks data (data.length + 1) 8 ⟨emptyMetadata, [], 120⟩
    Except.ok ⟨acc.metadata, acc.notes, totalDuration acc.notes, acc.tempo⟩
  else Except.error MMFError.invalidFormat

end MMFParser

/-! ## The playback scheduler (`MMFPlayer`, `src/unnamed/part_001` lines 1-259)

The class is embedded as a record of its fields.  `audioContext` is
modeled by a flag plus an explicit `now` argument (the monotonic clock
reading `audioContext.currentTime`, in seconds) passed to the operations
that consult it.  Each method returns the new field state together with
the notifications it emitted (`onStateChange` values, in order) and the
render commands it submitted to the audio subsystem.  The two
`setTimeout` callbacks (the deferred end-of-document callback armed by
`play`, and the 100 ms stopped→idle reset armed by `stop`) are modeled as
separate operations that can fire on any later state, exactly as the
source closures do: they capture only `this`, no epoch information. -/

inductive PlayerState
  | idle
  | playing
  | paused
  | stopped
  deriving DecidableEq

/-- One render command submitted to the audio subsystem
(`playNote(note, startTime, endTime)`); `scheduledNotes` tracks these
handles.  Waveform and envelope synthesis are delegated to the external
audio subsystem and are not part of the command's identity. -/
structure ToneCommand where
  note : MMFNote
  startAt : ℚ
  endAt : ℚ
  deriving DecidableEq

/-- The fields of `MMFPlayer`. -/
structure Player where
  state : PlayerState
  startTime : ℚ
  pauseTime : ℚ
  scheduledNotes : List ToneCommand
  mmfData : Option MMFData
  hasAudioContext : Bool
  deriving DecidableEq

/-- The observable effects of one scheduler operation. -/
structure Effects where
  submitted : List ToneCommand
  changes : List PlayerState
  endFired : Bool
  armedEnd : Bool
  deriving DecidableEq

namespace MMFPlayer

/-- An operation with no observable effects. -/
def noEffects : Effects := ⟨[], [], false, false⟩

/-- A freshly constructed player: state `idle`, zero times, no scheduled
notes, no document, no audio context. -/
def initPlayer : Player := ⟨PlayerState.idle, 0, 0, [], none, false⟩

/-- `setState(newState)`: assign and notify only when the state actually
changes. -/
def setState (p : Player) (s : PlayerState) : Player × List PlayerState :=
  if p.state = s then (p, []) else ({p with state := s}, [s])

/-- The command list built by `scheduleNotes(fromTime)`: notes whose
relative time is not before `fromTime` are submitted, at
`now + (note.time - fromTime) / 1000` (milliseconds → seconds) with the
end instant `duration / 1000` later. -/
def scheduleList (notes : List MMFNote) (now fromTime : ℚ) : List ToneCommand :=
  (notes.filter (fun n => !decide (n.time < fromTime))).map
    (fun n =>
      ⟨n, now + (n.time - fromTime) / 1000, now + (n.time - fromTime) / 1000 + n.duration / 1000⟩)

/-- `scheduleNotes(fromTime)`: no-op without an audio context or a
document; otherwise each scheduled command is pushed onto
`scheduledNotes`.  Returns the submitted commands. -/
def scheduleNotes (p : Player) (now fromTime : ℚ) : Player × List ToneCommand :=
  match p.mmfData with
  | none => (p, [])
  | some d =>
      if p.hasAudioContext then
        let cmds := scheduleList d.notes now fromTime
        ({p with scheduledNotes := p.scheduledNotes ++ cmds}, cmds)
      else (p, [])

/-- `stop()`: no-op from `idle`; otherwise transition to `stopped`, cancel
every tracked command (`clearScheduledNotes`) and reset both time fields.
The source also arms a 100 ms timeout that resets `stopped` to `idle`;
that deferred callback is the separate operation `stopResetCb`. -/
def stop (p : Player) : Player × List PlayerState :=
  if p.state = PlayerState.idle then (p, [])
  else
    let s1 := setState p PlayerState.stopped
    ({s1.1 with scheduledNotes := [], startTime := 0, pauseTime := 0}, s1.2)

/-- The deferred stopped→idle reset armed by `stop()`: acts only if the
state is still `stopped` when it fires. -/
def stopResetCb (p : Player) : Player × List PlayerState :=
  if p.state = PlayerState.stopped then setState p PlayerState.idle else (p, [])

/-- `resume()` (private; reached via `play()` while paused): transition to
`playing`, recompute the origin as `now - pauseTime`, and re-submit the
commands for notes at or after the captured elapsed time
(`pauseTime * 1000` milliseconds). -/
def resume (p : Player) (now : ℚ) : Player × List ToneCommand × List PlayerState :=
  if p.state = PlayerState.paused ∧ p.hasAudioContext ∧ p.mmfData.isSome then
    let s1 := setState p PlayerState.playing
    let p2 := {s1.1 with startTime := now - s1.1.pauseTime}
    let s3 := scheduleNotes p2 now (p2.pauseTime * 1000)
    (s3.1, s3.2, s1.2)
  else (p, [], [])

/-- `play()`: throws without a document (no field is mutated); otherwise
ensures the audio context exists, delegates to `resume` when paused, stops
any existing playback when already playing, transitions to `playing`,
captures the origin instant, schedules all notes from time 0, and — when
the document duration is positive — arms the deferred end-of-document
callback (`armedEnd`; the callback itself is the operation `endCb`).
Progress tracking reads state but mutates nothing. -/
def play (p : Player) (now : ℚ) : Player × Effects :=
  match p.mmfData with
  | none => (p, noEffects)
  | some d =>
      let p0 := {p with hasAudioContext := true}
      if p0.state = PlayerState.paused then
        let r := resume p0 now
        (r.1, ⟨r.2.1, r.2.2, false, false⟩)
      else
        let s1 := if p0.state = PlayerState.playing then stop p0 else (p0, [])
        let s2 := setState s1.1 PlayerState.playing
        let p3 := {s2.1 with startTime := now}
        let s4 := scheduleNotes p3 now 0
        (s4.1, ⟨s4.2, s1.2 ++ s2.2, false, decide (0 < d.duration)⟩)

/-- `pause()`: valid only from `playing`; transition to `paused`, capture
the elapsed time `now - startTime`, and cancel every tracked command. -/
def pause (p : Player) (now : ℚ) : Player × List PlayerState :=
  if p.state = PlayerState.playing then
    let s1 := setState p PlayerState.paused
    ({s1.1 with pauseTime := now - s1.1.startTime, scheduledNotes := []}, s1.2)
  else (p, [])

/-- `load(mmfData)`: store the document, then `stop()` to clean up any
existing playback. -/
def load (p : Player) (d : MMFData) : Player × List PlayerState :=
  stop {p with mmfData := some d}

/-- `dispose()`: `stop()`, close and drop the audio context, drop the
document. -/
def dispose (p : Player) : Player × List PlayerState :=
  let s1 := stop p
  ({s1.1 with hasAudioContext := false, mmfData := none}, s1.2)

/-- The deferred end-of-document callback armed by `play()`.  The closure
captures only `this`: when it fires it checks nothing but the current
state — if the state is `playing` (whether or not the playback epoch that
armed it is still the current one) it performs `stop()` and raises the
end-of-playback notification (the returned flag). -/
def endCb (p : Player) : Player × List PlayerState × Bool :=
  if p.state = PlayerState.playing then
    let s1 := stop p
    (s1.1, s1.2, true)
  else (p, [], false)

/-- The public operations of the scheduler, including the two deferred
callbacks. -/
inductive PlayerOp
  | opPlay (now : ℚ)
  | opPause (now : ℚ)
  | opStop
  | opLoad (d : MMFData)
  | opDispose
  | opEndCb
  | opStopResetCb

/-- One operation, projected to the new state and the emitted
`stateChanged` notifications. -/
def step (p : Player) : PlayerOp → Player × List PlayerState
  | PlayerOp.opPlay now => let r := play p now; (r.1, r.2.changes)
  | PlayerOp.opPause now => pause p now
  | PlayerOp.opStop => stop p
  | PlayerOp.opLoad d => load p d
  | PlayerOp.opDispose => dispose p
  | PlayerOp.opEndCb => let r := endCb p; (r.1, r.2.1)
  | PlayerOp.opStopResetCb => stopResetCb p

/-- Run a sequence of operations, concatenating the emitted `stateChanged`
notifications in order. -/
def runOps : Player → List PlayerOp → Player × List PlayerState
  | p, [] => (p, [])
  | p, op :: ops =>
      let s1 := step p op
      let s2 := runOps s1.1 ops
      (s2.1, s1.2 ++ s2.2)

/-- The relation used to verify the `stateChanged` discipline: starting
from `p`, the emitted notifications `es` lead to `q` with
`p.state :: es` pairwise distinct in sequence and the final state equal to
the last notification (or unchanged when nothing was emitted).  Every
scheduler operation satisfies it, because the state is mutated only by
`setState`, which notifies exactly on change. -/
def notifOk (p q : Player) (es : List PlayerState) : Prop :=
  List.Chain' (fun a b => a ≠ b) (p.state :: es) ∧
    q.state = es.getLast?.getD p.state


end MMFPlayer

/-! ### Concrete instances used by the claim witnesses -/

/-- A sample note at time 0. -/
def demoNote : MMFNote := ⟨0, 60, 250, 100, 0⟩

/-- A sample document with one note and duration 1000 ms. -/
def longDoc : MMFData := ⟨MMFParser.emptyMetadata, [demoNote], 1000, 120⟩

/-- A playing player: `longDoc` loaded, playback started at instant 0. -/
def playingPlayer : Player :=
  (MMFPlayer.play (MMFPlayer.load MMFPlayer.initPlayer longDoc).1 0).1

/-- The trace for the stale end-of-document callback: load `longDoc`,
play at instant 0 (arming the end callback for 1000 ms later), stop, play
again at instant 5 — a fresh playback epoch that is `playing` when the
first epoch's callback fires. -/
def stalePlayer : Player :=
  (MMFPlayer.play (MMFPlayer.stop playingPlayer).1 5).1

namespace MMFParser

theorem land128_eq_zero : ∀ s, s < 128 → s &&& 128 = 0 := by decide

theorem readVariableLength_small (data : List ℕ) (pos : ℕ) (s : ℕ) (h : s < 128) :
    readVariableLength data pos s = ((s : ℤ), pos) := by
  unfold readVariableLength
  rw [land128_eq_zero s h]
  simp

theorem mtrLoop_exit (data : List ℕ) (endPos : ℕ) (tick : ℚ) (fuel pos : ℕ) (t : ℚ)
    (notes : List MMFNote) (tempo : Option ℤ) (h : ¬ pos < endPos - 1) :
    mtrLoop data endPos tick fuel pos t notes tempo = (notes, tempo) := by
  cases fuel with
  | zero => rfl
  | succ f => simp only [mtrLoop, if_neg h]

theorem mtrLoop_noteOff (data : List ℕ) (endPos : ℕ) (tick : ℚ) (fuel pos : ℕ) (t : ℚ)
    (notes : List MMFNote) (tempo : Option ℤ) (st : ℕ)
    (hg : pos < endPos - 1) (hs : readUInt8 data pos = some st)
    (h1 : 128 ≤ st) (h2 : st ≤ 143) (hb : pos + 3 ≤ endPos) :
    mtrLoop data endPos tick (fuel + 1) pos t notes tempo =
      mtrLoop data endPos tick fuel (pos + 3) t notes tempo := by
  simp only [mtrLoop, if_pos hg, hs]
  rw [if_pos ⟨h1, h2⟩, if_neg (by omega)]

theorem mtrLoop_noteOn (data : List ℕ) (endPos : ℕ) (tick : ℚ) (fuel pos : ℕ) (t : ℚ)
    (notes : List MMFNote) (tempo : Option ℤ) (st nv v : ℕ)
    (hg : pos < endPos - 1) (hs : readUInt8 data pos = some st)
    (h1 : 144 ≤ st) (h2 : st ≤ 159) (hb : pos + 3 ≤ endPos)
    (hn : readUInt8 data (pos + 1) = some nv) (hv : readUInt8 data (pos + 2) = some v)
    (hv0 : 0 < v) :
    mtrLoop data endPos tick (fuel + 1) pos t notes tempo =
      mtrLoop data endPos tick fuel (pos + 3) t
        (notes ++ [⟨t, nv, DEFAULT_NOTE_DURATION_MS, v, st &&& 15⟩]) tempo := by
  simp only [mtrLoop, if_pos hg, hs]
  rw [if_neg (by omega), if_pos ⟨h1, h2⟩, if_neg (by omega)]
  simp only [hn, hv, if_pos hv0]

theorem mtrLoop_tempo (data : List ℕ) (endPos : ℕ) (tick : ℚ) (fuel pos : ℕ) (t : ℚ)
    (notes : List MMFNote) (tempo : Option ℤ)
    (hg : pos < endPos - 1) (hs : readUInt8 data pos = some 255)
    (hm : readUInt8 data (pos + 1) = some 81) (hl : readUInt8 data (pos + 2) = some 3)
    (hb : pos + 6 ≤ endPos) :
    mtrLoop data endPos tick (fuel + 1) pos t notes tempo =
      mtrLoop data endPos tick fuel (pos + 6) t notes
        (some (round ((60000000 : ℚ) / (readUInt24BE data (pos + 3) : ℚ)))) := by
  simp only [mtrLoop, if_pos hg, hs]
  rw [if_neg (by omega), if_neg (by omega), if_pos trivial, if_neg (by omega)]
  simp only [hm, hl]
  rw [if_pos ⟨trivial, trivial, by omega⟩]

theorem mtrLoop_delta (data : List ℕ) (endPos : ℕ) (tick : ℚ) (fuel pos : ℕ) (t : ℚ)
    (notes : List MMFNote) (tempo : Option ℤ) (st : ℕ)
    (hg : pos < endPos - 1) (hs : readUInt8 data pos = some st) (h : st < 128) :
    mtrLoop data endPos tick (fuel + 1) pos t notes tempo =
      mtrLoop data endPos tick fuel (pos + 1) (t + (st : ℚ) * tick) notes tempo := by
  simp only [mtrLoop, if_pos hg, hs]
  rw [if_neg (by omega), if_neg (by omega), if_neg (by omega), if_pos h,
    readVariableLength_small data (pos + 1) st h]
  norm_num

theorem mtrLoop_fallthrough (data : List ℕ) (endPos : ℕ) (tick : ℚ) (fuel pos : ℕ) (t : ℚ)
    (notes : List MMFNote) (tempo : Option ℤ) (st : ℕ)
    (hg : pos < endPos - 1) (hs : readUInt8 data pos = some st)
    (h1 : 160 ≤ st) (h2 : st ≤ 175) (hc : pos + 1 < endPos) :
    mtrLoop data endPos tick (fuel + 1) pos t notes tempo =
      mtrLoop data endPos tick fuel (pos + 1) t notes tempo := by
  simp only [mtrLoop, if_pos hg, hs]
  rw [if_neg (by omega), if_neg (by omega), if_neg (by omega), if_neg (by omega),
    if_neg (by omega), if_neg (by omega)]

end MMFParser

namespace MMFParser

theorem parseMTR_short (data : List ℕ) (offset size : ℕ) (h : size ≤ 5) :
    parseMTR data offset size = ([], none) := by
  simp only [parseMTR]
  split_ifs <;> first | rfl | (exfalso; omega)

theorem parseMTR_run (data : List ℕ) (offset size : ℕ) (h : 6 ≤ size) :
    parseMTR data offset size =
      mtrLoop data (offset + size) (mtrTick (readUInt8 data (offset + 2))) size
        (offset + 5) 0 [] none := by
  simp only [parseMTR]
  split_ifs <;> first | rfl | (exfalso; omega)

theorem stripTrim_sublist (l : List ℕ) : List.Sublist (stripTrim l) l := by
  unfold stripTrim
  have h1 : List.Sublist (l.filter (fun b => !(b == 0))) l := List.filter_sublist l
  have h2 : List.Sublist ((l.filter (fun b => !(b == 0))).dropWhile isJsSpace)
      (l.filter (fun b => !(b == 0))) := List.dropWhile_sublist _
  set b := (l.filter (fun b => !(b == 0))).dropWhile isJsSpace with hb
  have h3 : List.Sublist (b.reverse.dropWhile isJsSpace).reverse b := by
    have := (List.dropWhile_sublist (l := b.reverse) (p := isJsSpace)).reverse
    rwa [List.reverse_reverse] at this
  exact h3.trans (h2.trans h1)

theorem verifyHeader_iff (data : List ℕ) :
    verifyHeader data = true ↔ data.take 4 = magicBytes := by
  unfold verifyHeader readStringBytes
  rw [List.drop_zero, beq_iff_eq]
  constructor
  · intro h
    have hsub : List.Sublist (stripTrim (data.take 4)) (data.take 4) := stripTrim_sublist _
    have hlen : (data.take 4).length ≤ 4 := by
      simp [List.length_take]
    have hlen2 : (stripTrim (data.take 4)).length = 4 := by rw [h]; rfl
    have hsl : (stripTrim (data.take 4)).length = (data.take 4).length := by
      have := hsub.length_le
      omega
    rw [← hsub.eq_of_length hsl, h]
  · intro h
    rw [h]
    decide

/-- C5: `parse` fails (with `invalidFormat`) exactly when the first four
bytes of the buffer are not the `MMMD` magic signature; whenever the
signature is present, `parse` returns a document and raises no error,
whatever the remaining bytes are. -/
theorem c5_invalid_format_iff (data : List ℕ) :
    (parse data = Except.error MMFError.invalidFormat ↔ ¬ data.take 4 = magicBytes) ∧
    (data.take 4 = magicBytes → ∃ doc, parse data = Except.ok doc) := by
  have hv := verifyHeader_iff data
  constructor
  · constructor
    · intro h hmagic
      unfold parse at h
      rw [if_pos (hv.mpr hmagic)] at h
      exact Except.noConfusion h
    · intro h
      unfold parse
      rw [if_neg (fun hh => h (hv.mp hh))]
  · intro h
    unfold parse
    rw [if_pos (hv.mpr h)]
    exact ⟨_, rfl⟩

theorem c5_witness :
    ∃ doc, parse [77, 77, 77, 68] = Except.ok doc :=
  (c5_invalid_format_iff [77, 77, 77, 68]).2 (by decide)

/-- C6 counterexample: a buffer of 16 bytes with the cursor at position 8,
so exactly 8 bytes (a full 4-byte tag plus 4-byte size) remain; the claim
says a `ChunkHeader` is read, but `readChunkHeader` returns `null`. -/
theorem c6_counterexample :
    (List.length [77, 77, 77, 68, 0, 0, 0, 16, 67, 78, 84, 73, 0, 0, 0, 0] - 8 = 8) ∧
    readChunkHeader [77, 77, 77, 68, 0, 0, 0, 16, 67, 78, 84, 73, 0, 0, 0, 0] 8 = none := by
  decide

/-- C6 (amended): a chunk header is read exactly when at least 9 bytes
remain past the cursor (`pos + 9 ≤ length`); the top-level loop terminates
as soon as 8 or fewer bytes remain, so a chunk whose 8-byte header starts
exactly 8 bytes before the end of the buffer is not dispatched. -/
theorem c6_chunk_header_nine_bytes (data : List ℕ) (pos : ℕ) :
    ((readChunkHeader data pos).isSome = true ↔ pos + 9 ≤ data.length) ∧
    (∀ fuel acc, data.length ≤ pos + 8 → parseChunks data fuel pos acc = acc) := by
  constructor
  · unfold readChunkHeader
    split_ifs with h
    · simp only [Option.isSome_none, Bool.false_eq_true, false_iff]
      omega
    · simp only [Option.isSome_some, true_iff]
      omega
  · intro fuel acc h
    cases fuel with
    | zero => rfl
    | succ f =>
      simp only [parseChunks]
      rw [if_neg (by omega)]

theorem c6_witness :
    (readChunkHeader [77, 77, 77, 68, 0, 0, 0, 16, 67, 78, 84, 73, 0, 0, 0, 0, 9] 8).isSome
        = true ∧
    parseChunks [1, 2, 3] 5 0 ⟨emptyMetadata, [], 120⟩ = ⟨emptyMetadata, [], 120⟩ :=
  ⟨(c6_chunk_header_nine_bytes _ 8).1.mpr (by norm_num),
   (c6_chunk_header_nine_bytes _ 0).2 5 _ (by norm_num)⟩

end MMFParser

namespace MMFParser

/-- C7: a meta event `0xFF 0x51` with length 3 reads a 24-bit big-endian
microseconds-per-beat value `m` and sets the tempo override to
`round (60000000 / m)`. -/
theorem c7_tempo_meta (data : List ℕ) (endPos : ℕ) (tick : ℚ) (fuel pos : ℕ) (t : ℚ)
    (notes : List MMFNote) (tempo : Option ℤ)
    (hg : pos < endPos - 1) (hs : readUInt8 data pos = some 255)
    (hm : readUInt8 data (pos + 1) = some 81) (hl : readUInt8 data (pos + 2) = some 3)
    (hb : pos + 6 ≤ endPos) (_hmpos : 0 < readUInt24BE data (pos + 3)) :
    mtrLoop data endPos tick (fuel + 1) pos t notes tempo =
      mtrLoop data endPos tick fuel (pos + 6) t notes
        (some (round ((60000000 : ℚ) / (readUInt24BE data (pos + 3) : ℚ)))) := by
  simp only [mtrLoop, if_pos hg, hs]
  rw [if_neg (by omega), if_neg (by omega), if_pos trivial, if_neg (by omega)]
  simp only [hm, hl]
  rw [if_pos ⟨trivial, trivial, by omega⟩]

theorem c7_witness :
    parseMTR [0, 0, 0, 0, 0, 255, 81, 3, 7, 161, 32, 0] 0 12 = ([], some 120) ∧
    parseMTR [0, 0, 0, 0, 0, 255, 81, 3, 6, 26, 128, 0] 0 12 = ([], some 150) := by
  constructor
  · rw [parseMTR_run _ 0 12 (by norm_num)]
    simp only [Nat.zero_add]
    rw [show (12 : ℕ) = 11 + 1 from rfl,
      c7_tempo_meta _ _ _ _ _ _ _ _ (by norm_num) (by rfl) (by rfl) (by rfl) (by norm_num)
        (by decide)]
    rw [mtrLoop_exit _ _ _ _ _ _ _ _ (by norm_num)]
    have : readUInt24BE [0, 0, 0, 0, 0, 255, 81, 3, 7, 161, 32, 0] 8 = 500000 := by decide
    rw [this]
    norm_num [round_eq]
  · rw [parseMTR_run _ 0 12 (by norm_num)]
    simp only [Nat.zero_add]
    rw [show (12 : ℕ) = 11 + 1 from rfl,
      c7_tempo_meta _ _ _ _ _ _ _ _ (by norm_num) (by rfl) (by rfl) (by rfl) (by norm_num)
        (by decide)]
    rw [mtrLoop_exit _ _ _ _ _ _ _ _ (by norm_num)]
    have : readUInt24BE [0, 0, 0, 0, 0, 255, 81, 3, 6, 26, 128, 0] 8 = 400000 := by decide
    rw [this]
    norm_num [round_eq]

/-- C2: in a track chunk whose sub-header carries duration time-base `D`,
two note-on events separated by a single delta-time event of `n` ticks
produce notes whose start times differ by `n * (500 / D)` milliseconds
(the first note starting at 0), and by `n * 1` when `D = 0`. -/
theorem c2_delta_time_scaling (f s D g c st1 p1 v1 n st2 p2 v2 : ℕ)
    (h1 : 144 ≤ st1) (h1b : st1 ≤ 159) (h2 : 144 ≤ st2) (h2b : st2 ≤ 159)
    (hv1 : 0 < v1) (hv2 : 0 < v2) (hn : n < 128) :
    parseMTR [f, s, D, g, c, st1, p1, v1, n, st2, p2, v2] 0 12 =
      ([⟨0, p1, DEFAULT_NOTE_DURATION_MS, v1, st1 &&& 15⟩,
        ⟨(n : ℚ) * (if 0 < D then (500 : ℚ) / D else 1), p2, DEFAULT_NOTE_DURATION_MS, v2,
          st2 &&& 15⟩], none) := by
  rw [parseMTR_run _ 0 12 (by norm_num)]
  simp only [Nat.zero_add]
  have hD : readUInt8 [f, s, D, g, c, st1, p1, v1, n, st2, p2, v2] 2 = some D := rfl
  rw [hD]
  rw [show (12 : ℕ) = 11 + 1 from rfl,
    mtrLoop_noteOn _ _ _ _ _ _ _ _ st1 p1 v1 (by norm_num) (by rfl) h1 h1b (by norm_num)
      (by rfl) (by rfl) hv1]
  rw [show (11 : ℕ) = 10 + 1 from rfl,
    mtrLoop_delta _ _ _ _ _ _ _ _ n (by norm_num) (by rfl) hn]
  rw [show (10 : ℕ) = 9 + 1 from rfl,
    mtrLoop_noteOn _ _ _ _ _ _ _ _ st2 p2 v2 (by norm_num) (by rfl) h2 h2b (by norm_num)
      (by rfl) (by rfl) hv2]
  rw [mtrLoop_exit _ _ _ _ _ _ _ _ (by norm_num)]
  simp only [mtrTick, List.nil_append, List.singleton_append, zero_add]

theorem c2_witness :
    parseMTR [0, 0, 5, 0, 0, 144, 60, 100, 2, 145, 62, 90] 0 12 =
      ([⟨0, 60, DEFAULT_NOTE_DURATION_MS, 100, 0⟩,
        ⟨200, 62, DEFAULT_NOTE_DURATION_MS, 90, 1⟩], none) := by
  rw [c2_delta_time_scaling 0 0 5 0 0 144 60 100 2 145 62 90
    (by norm_num) (by norm_num) (by norm_num) (by norm_num)
    (by norm_num) (by norm_num) (by norm_num)]
  norm_num
  decide

/-- C10: a status byte in `[0xA0, 0xAF]` matches no branch of the event
decoder: exactly one byte (the status itself) is consumed and the running
state is unchanged, so the following bytes are reinterpreted as the start
of the next event. -/
theorem c10_aftertouch_single_byte (data : List ℕ) (endPos : ℕ) (tick : ℚ) (fuel pos : ℕ)
    (t : ℚ) (notes : List MMFNote) (tempo : Option ℤ) (st : ℕ)
    (hg : pos < endPos - 1) (hs : readUInt8 data pos = some st)
    (h1 : 160 ≤ st) (h2 : st ≤ 175) (hc : pos + 1 < endPos) :
    mtrLoop data endPos tick (fuel + 1) pos t notes tempo =
      mtrLoop data endPos tick fuel (pos + 1) t notes tempo := by
  simp only [mtrLoop, if_pos hg, hs]
  rw [if_neg (by omega), if_neg (by omega), if_neg (by omega), if_neg (by omega),
    if_neg (by omega), if_neg (by omega)]

theorem c10_witness :
    mtrLoop [0, 0, 0, 0, 0, 165, 10, 20, 144, 60, 100, 0] 12 1 7 5 0 [] none =
      mtrLoop [0, 0, 0, 0, 0, 165, 10, 20, 144, 60, 100, 0] 12 1 6 6 0 [] none ∧
    parseMTR [0, 0, 0, 0, 0, 165, 10, 20, 144, 60, 100, 0] 0 12 =
      ([⟨30, 60, DEFAULT_NOTE_DURATION_MS, 100, 0⟩], none) := by
  refine ⟨c10_aftertouch_single_byte _ _ _ 6 5 _ _ _ 165
    (by norm_num) (by rfl) (by norm_num) (by norm_num) (by norm_num), ?_⟩
  rw [parseMTR_run _ 0 12 (by norm_num)]
  simp only [Nat.zero_add]
  have hD : readUInt8 [0, 0, 0, 0, 0, 165, 10, 20, 144, 60, 100, 0] 2 = some 0 := rfl
  rw [hD]
  rw [show (12 : ℕ) = 11 + 1 from rfl,
    c10_aftertouch_single_byte _ _ _ _ _ _ _ _ 165 (by norm_num) (by rfl) (by norm_num)
      (by norm_num) (by norm_num)]
  rw [show (11 : ℕ) = 10 + 1 from rfl,
    mtrLoop_delta _ _ _ _ _ _ _ _ 10 (by norm_num) (by rfl) (by norm_num)]
  rw [show (10 : ℕ) = 9 + 1 from rfl,
    mtrLoop_delta _ _ _ _ _ _ _ _ 20 (by norm_num) (by rfl) (by norm_num)]
  rw [show (9 : ℕ) = 8 + 1 from rfl,
    mtrLoop_noteOn _ _ _ _ _ _ _ _ 144 60 100 (by norm_num) (by rfl) (by norm_num) (by norm_num)
      (by norm_num) (by rfl) (by rfl) (by norm_num)]
  rw [mtrLoop_exit _ _ _ _ _ _ _ _ (by norm_num)]
  simp only [mtrTick, List.nil_append]
  norm_num
  decide

end MMFParser

namespace MMFParser

theorem mtrLoop_sorted (data : List ℕ) (endPos : ℕ) (tick : ℚ) (htick : 0 ≤ tick) :
    ∀ fuel pos t notes tempo,
      List.Chain' (fun a b : MMFNote => a.time ≤ b.time) notes →
      (∀ x ∈ notes, x.time ≤ t) →
      List.Chain' (fun a b : MMFNote => a.time ≤ b.time)
        (mtrLoop data endPos tick fuel pos t notes tempo).1 := by
  intro fuel
  induction fuel with
  | zero => intro pos t notes tempo hc hb; exact hc
  | succ f ih =>
    intro pos t notes tempo hc hb
    by_cases hg : pos < endPos - 1
    · rw [mtrLoop, if_pos hg]
      rcases hread : readUInt8 data pos with _ | status
      · simp only []
        split_ifs
        · exact hc
        · exact ih (pos + 1) t notes tempo hc hb
      · simp only []
        by_cases hOff : 128 ≤ status ∧ status ≤ 143
        · rw [if_pos hOff]
          split_ifs
          · exact hc
          · exact ih (pos + 3) t notes tempo hc hb
        · rw [if_neg hOff]
          by_cases hOn : 144 ≤ status ∧ status ≤ 159
          · rw [if_pos hOn]
            split_ifs with hB
            · exact hc
            · rcases readUInt8 data (pos + 1) with _ | nv <;>
                rcases readUInt8 data (pos + 2) with _ | v
              · exact ih (pos + 3) t notes tempo hc hb
              · exact ih (pos + 3) t notes tempo hc hb
              · exact ih (pos + 3) t notes tempo hc hb
              · simp only []
                split_ifs with hv
                · refine ih (pos + 3) t _ tempo ?_ ?_
                  · rw [List.chain'_append]
                    refine ⟨hc, List.chain'_singleton _, ?_⟩
                    intro x hx y hy
                    simp only [List.head?_cons, Option.mem_def, Option.some.injEq] at hy
                    subst hy
                    exact hb x (List.mem_of_mem_getLast? hx)
                  · intro x hx
                    rcases List.mem_append.mp hx with hmem | hmem
                    · exact hb x hmem
                    · simp only [List.mem_singleton] at hmem
                      subst hmem
                      exact le_refl t
                · exact ih (pos + 3) t notes tempo hc hb
          · rw [if_neg hOn]
            by_cases hMeta : status = 255
            · rw [if_pos hMeta]
              split_ifs with hB
              · exact hc
              · rcases readUInt8 data (pos + 1) with _ | mt <;>
                  rcases readUInt8 data (pos + 2) with _ | len
                · exact hc
                · exact hc
                · exact hc
                · simp only []
                  split_ifs
                  · exact ih (pos + 6) t notes _ hc hb
                  · exact ih (pos + 3 + len) t notes tempo hc hb
                  · exact hc
            · rw [if_neg hMeta]
              by_cases hDelta : status < 128
              · rw [if_pos hDelta]
                rw [readVariableLength_small data (pos + 1) status hDelta]
                refine ih (pos + 1) _ notes tempo hc ?_
                intro x hx
                have hnn : (0 : ℚ) ≤ (status : ℚ) * tick :=
                  mul_nonneg (Nat.cast_nonneg status) htick
                have hxt := hb x hx
                push_cast
                linarith
              · rw [if_neg hDelta]
                by_cases hCtl : 176 ≤ status ∧ status ≤ 239
                · rw [if_pos hCtl]
                  split_ifs <;> first | exact hc | exact ih _ t notes tempo hc hb
                · rw [if_neg hCtl]
                  split_ifs
                  · exact hc
                  · exact ih (pos + 1) t notes tempo hc hb
    · rw [mtrLoop_exit data endPos tick (f + 1) pos t notes tempo hg]
      exact hc

/-- C8: for every music-track chunk and input byte sequence, the notes
emitted by the track decoder are in non-decreasing start-time order: the
running time counter only ever advances (a delta value is a single data
byte times the nonnegative tick duration). -/
theorem c8_notes_sorted (data : List ℕ) (offset size : ℕ) :
    List.Chain' (fun a b : MMFNote => a.time ≤ b.time) (parseMTR data offset size).1 := by
  by_cases h : size ≤ 5
  · rw [parseMTR_short data offset size h]
    exact List.chain'_nil
  · rw [parseMTR_run data offset size (by omega)]
    refine mtrLoop_sorted data (offset + size) _ ?_ size (offset + 5) 0 [] none
      List.chain'_nil (by intro x hx; exact absurd hx (List.not_mem_nil x))
    unfold mtrTick
    rcases readUInt8 data (offset + 2) with _ | d
    · norm_num
    · simp only []
      split_ifs
      · positivity
      · norm_num

end MMFParser

namespace MMFParser

/-- C3: the track decoder reads exactly the five single-byte sub-header
fields (format type, sequence type, duration time-base at `offset + 2`,
gate time-base, channel status) before interpreting any event byte: a
chunk shorter than the sub-header yields an empty note list and no tempo
override without failing, and otherwise the event loop starts at
`offset + 5` with the tick scale taken from the third sub-header byte. -/
theorem c3_subheader_five_fields (data : List ℕ) (offset size : ℕ) :
    (size ≤ 5 → parseMTR data offset size = ([], none)) ∧
    (6 ≤ size →
      parseMTR data offset size =
        mtrLoop data (offset + size) (mtrTick (readUInt8 data (offset + 2))) size
          (offset + 5) 0 [] none) :=
  ⟨parseMTR_short data offset size, parseMTR_run data offset size⟩

theorem c3_witness :
    parseMTR [1, 2, 3] 0 3 = ([], none) ∧
    parseMTR [0, 0, 5, 0, 0, 0, 0] 0 7 =
      mtrLoop [0, 0, 5, 0, 0, 0, 0] 7 (mtrTick (readUInt8 [0, 0, 5, 0, 0, 0, 0] 2))
        7 5 0 [] none :=
  ⟨(c3_subheader_five_fields [1, 2, 3] 0 3).1 (by norm_num),
   (c3_subheader_five_fields [0, 0, 5, 0, 0, 0, 0] 0 7).2 (by norm_num)⟩

end MMFParser

namespace MMFPlayer

theorem getLast?_cons_some {α : Type} : ∀ (l : List α) (a : α),
    (a :: l).getLast? = some (l.getLast?.getD a)
  | [], _ => rfl
  | b :: t, a => by
      rw [List.getLast?_cons_cons, getLast?_cons_some t b]
      rfl

theorem notifOk_rfl (p : Player) : notifOk p p [] :=
  ⟨List.chain'_singleton _, rfl⟩

theorem notifOk_of_state_eq {p q : Player} {es : List PlayerState} (h : notifOk p q es)
    {r : Player} (hr : r.state = q.state) : notifOk p r es :=
  ⟨h.1, hr.trans h.2⟩

theorem notifOk_comp {p q r : Player} {es fs : List PlayerState}
    (h1 : notifOk p q es) (h2 : notifOk q r fs) : notifOk p r (es ++ fs) := by
  obtain ⟨hc1, hl1⟩ := h1
  obtain ⟨hc2, hl2⟩ := h2
  constructor
  · rw [← List.cons_append, List.chain'_append]
    refine ⟨hc1, (List.chain'_cons'.mp hc2).2, ?_⟩
    intro x hx y hy
    have hx2 : x = q.state := by
      rw [getLast?_cons_some] at hx
      simp only [Option.mem_def, Option.some.injEq] at hx
      rw [hl1, hx]
    subst hx2
    exact (List.chain'_cons'.mp hc2).1 y hy
  · rcases fs with _ | ⟨f0, ft⟩
    · simpa using hl2.trans hl1
    · rw [List.getLast?_append_cons, hl2]
      rcases hfl : (f0 :: ft).getLast? with _ | v
      · exact absurd hfl (by simp [getLast?_cons_some])
      · rfl

theorem setState_notifOk (p : Player) (s : PlayerState) :
    notifOk p (setState p s).1 (setState p s).2 := by
  unfold setState
  split_ifs with h
  · exact notifOk_rfl p
  · exact ⟨List.chain'_pair.mpr h, rfl⟩

theorem scheduleNotes_state (p : Player) (now ft : ℚ) :
    (scheduleNotes p now ft).1.state = p.state := by
  unfold scheduleNotes
  rcases h : p.mmfData with _ | d <;> simp only [h]
  split_ifs <;> rfl

theorem stop_notifOk (p : Player) : notifOk p (stop p).1 (stop p).2 := by
  unfold stop
  split_ifs with h
  · exact notifOk_rfl p
  · exact notifOk_of_state_eq (setState_notifOk p PlayerState.stopped) rfl

theorem stopResetCb_notifOk (p : Player) :
    notifOk p (stopResetCb p).1 (stopResetCb p).2 := by
  unfold stopResetCb
  split_ifs with h
  · exact setState_notifOk p PlayerState.idle
  · exact notifOk_rfl p

theorem pause_notifOk (p : Player) (now : ℚ) :
    notifOk p (pause p now).1 (pause p now).2 := by
  unfold pause
  split_ifs with h
  · exact notifOk_of_state_eq (setState_notifOk p PlayerState.paused) rfl
  · exact notifOk_rfl p

theorem load_notifOk (p : Player) (d : MMFData) :
    notifOk p (load p d).1 (load p d).2 := by
  unfold load
  exact stop_notifOk {p with mmfData := some d}

theorem dispose_notifOk (p : Player) : notifOk p (dispose p).1 (dispose p).2 := by
  unfold dispose
  exact notifOk_of_state_eq (stop_notifOk p) rfl

theorem endCb_notifOk (p : Player) : notifOk p (endCb p).1 (endCb p).2.1 := by
  unfold endCb
  split_ifs with h
  · exact stop_notifOk p
  · exact notifOk_rfl p

theorem resume_notifOk (p : Player) (now : ℚ) :
    notifOk p (resume p now).1 (resume p now).2.2 := by
  unfold resume
  split_ifs with h
  · refine notifOk_of_state_eq (setState_notifOk p PlayerState.playing) ?_
    rw [scheduleNotes_state]
  · exact notifOk_rfl p

theorem play_notifOk (p : Player) (now : ℚ) :
    notifOk p (play p now).1 (play p now).2.changes := by
  unfold play
  rcases h : p.mmfData with _ | d <;> simp only [h]
  · exact notifOk_rfl p
  · rw [← h]
    split_ifs with hp hpl
    · exact resume_notifOk {p with hasAudioContext := true} now
    · refine notifOk_comp (stop_notifOk {p with hasAudioContext := true}) ?_
      refine notifOk_of_state_eq
        (setState_notifOk (stop {p with hasAudioContext := true}).1 PlayerState.playing) ?_
      rw [scheduleNotes_state]
    · refine notifOk_comp (notifOk_rfl {p with hasAudioContext := true}) ?_
      refine notifOk_of_state_eq
        (setState_notifOk {p with hasAudioContext := true} PlayerState.playing) ?_
      rw [scheduleNotes_state]

theorem step_notifOk (p : Player) (op : PlayerOp) :
    notifOk p (step p op).1 (step p op).2 := by
  cases op with
  | opPlay now => exact play_notifOk p now
  | opPause now => exact pause_notifOk p now
  | opStop => exact stop_notifOk p
  | opLoad d => exact load_notifOk p d
  | opDispose => exact dispose_notifOk p
  | opEndCb => exact endCb_notifOk p
  | opStopResetCb => exact stopResetCb_notifOk p

theorem runOps_notifOk (ops : List PlayerOp) :
    ∀ p : Player, notifOk p (runOps p ops).1 (runOps p ops).2 := by
  induction ops with
  | nil => intro p; exact notifOk_rfl p
  | cons op ops ih =>
    intro p
    exact notifOk_comp (step_notifOk p op) (ih (step p op).1)

end MMFPlayer

/-- C9: the `stateChanged` notification fires only when the newly assigned
state differs from the current state (`setState` is the only mutation
point and notifies exactly on change), so over any sequence of scheduler
operations the emitted notifications are consecutively distinct. -/
theorem c9_state_changed_distinct :
    (∀ (p : Player) (s : PlayerState), (MMFPlayer.setState p s).2 = [] ↔ p.state = s) ∧
    (∀ ops : List MMFPlayer.PlayerOp,
      List.Chain' (fun a b => a ≠ b) (MMFPlayer.runOps MMFPlayer.initPlayer ops).2) := by
  constructor
  · intro p s
    unfold MMFPlayer.setState
    split_ifs with h
    · simpa using h
    · simpa using h
  · intro ops
    exact ((MMFPlayer.runOps_notifOk ops MMFPlayer.initPlayer).1).tail

/-- C1 (amended): for a scheduler in the Playing state with a loaded
document, `play()` is not a no-op — it restarts playback: it performs the
work of `stop()` (cancelling every in-flight command and notifying
`stopped`) and then starts afresh, re-capturing the origin instant and
submitting the full schedule exactly once, so the in-flight set afterwards
is precisely the fresh schedule (no double-scheduling) and the state is
`playing` again. -/
theorem c1_play_while_playing_restarts (p : Player) (d : MMFData) (now : ℚ)
    (h1 : p.state = PlayerState.playing) (h2 : p.mmfData = some d) :
    MMFPlayer.play p now =
      ({p with
          state := PlayerState.playing
          startTime := now
          pauseTime := 0
          scheduledNotes := MMFPlayer.scheduleList d.notes now 0
          hasAudioContext := true},
       ⟨MMFPlayer.scheduleList d.notes now 0,
        [PlayerState.stopped, PlayerState.playing], false, decide (0 < d.duration)⟩) := by
  unfold MMFPlayer.play
  simp only [h2]
  rw [if_neg (by simp [h1]), if_pos (by simp [h1])]
  simp [MMFPlayer.stop, MMFPlayer.setState, MMFPlayer.scheduleNotes, h1, h2]

theorem c1_witness :
    MMFPlayer.play (⟨PlayerState.playing, 0, 0, [], some longDoc, true⟩ : Player) 1 =
      (⟨PlayerState.playing, 1, 0, MMFPlayer.scheduleList longDoc.notes 1 0, some longDoc,
        true⟩,
       ⟨MMFPlayer.scheduleList longDoc.notes 1 0,
        [PlayerState.stopped, PlayerState.playing], false, decide ((0 : ℚ) < longDoc.duration)⟩) :=
  c1_play_while_playing_restarts _ longDoc 1 rfl rfl

/-- C1 counterexample: a concrete scheduler in the Playing state for which
`play()` changes the captured origin instant and submits a render command
— refuting the claimed no-op. -/
theorem c1_counterexample :
    (⟨PlayerState.playing, 0, 0, [], some longDoc, true⟩ : Player).state =
        PlayerState.playing ∧
    (MMFPlayer.play (⟨PlayerState.playing, 0, 0, [], some longDoc, true⟩ : Player) 1).1.startTime
        ≠ (⟨PlayerState.playing, 0, 0, [], some longDoc, true⟩ : Player).startTime ∧
    (MMFPlayer.play (⟨PlayerState.playing, 0, 0, [], some longDoc, true⟩ : Player) 1).2.submitted
        ≠ [] := by
  refine ⟨rfl, ?_, ?_⟩ <;>
    simp [MMFPlayer.play, MMFPlayer.stop, MMFPlayer.setState, MMFPlayer.scheduleNotes,
      MMFPlayer.scheduleList, longDoc, demoNote]

theorem playingPlayer_eq :
    playingPlayer =
      ⟨PlayerState.playing, 0, 0, [⟨demoNote, 0, 1/4⟩], some longDoc, true⟩ := by
  simp [playingPlayer, MMFPlayer.load, MMFPlayer.stop, MMFPlayer.play, MMFPlayer.setState,
    MMFPlayer.scheduleNotes, MMFPlayer.scheduleList, MMFPlayer.initPlayer, longDoc, demoNote]
  norm_num

theorem stalePlayer_eq :
    stalePlayer =
      ⟨PlayerState.playing, 5, 0, [⟨demoNote, 5, 21 / 4⟩], some longDoc, true⟩ := by
  rw [stalePlayer, playingPlayer_eq]
  simp [MMFPlayer.stop, MMFPlayer.play, MMFPlayer.setState,
    MMFPlayer.scheduleNotes, MMFPlayer.scheduleList, longDoc, demoNote]
  norm_num

/-- C4 is violated by the code: the deferred end-of-document callback
armed by `play()` checks only the current state (the closure captures no
epoch), so in the trace load; play at 0 (arming the callback); stop;
play at 5, the callback armed by the first — superseded — epoch finds
the state `playing` and performs `stop()` plus the end-of-playback
notification, killing the second epoch's playback instead of being a
no-op. -/
theorem c4_stale_end_callback :
    stalePlayer.state = PlayerState.playing ∧
    (MMFPlayer.play (MMFPlayer.load MMFPlayer.initPlayer longDoc).1 0).2.armedEnd = true ∧
    (MMFPlayer.endCb stalePlayer).2.2 = true ∧
    (MMFPlayer.endCb stalePlayer).1.state = PlayerState.stopped ∧
    (MMFPlayer.endCb stalePlayer).1.scheduledNotes = [] := by
  rw [stalePlayer_eq]
  refine ⟨rfl, ?_, ?_, ?_, ?_⟩
  · simp [MMFPlayer.load, MMFPlayer.stop, MMFPlayer.play, MMFPlayer.setState,
      MMFPlayer.scheduleNotes, MMFPlayer.scheduleList, MMFPlayer.initPlayer, longDoc, demoNote]
  · simp [MMFPlayer.endCb, MMFPlayer.stop, MMFPlayer.setState]
  · simp [MMFPlayer.endCb, MMFPlayer.stop, MMFPlayer.setState]
  · simp [MMFPlayer.endCb, MMFPlayer.stop, MMFPlayer.setState]
